import Mathlib

/-!
Verification development for the growth-medium subsystem described in the
repository documentation (src/documentation_builder/media.ipynb) and its
design specification: a flux-balance network model, a boundary-reaction
classifier, a reversible medium view, scoped mutation, and the minimal
medium solver with alternative enumeration.

The implementing library code is not part of this repository checkout, so
the definitions below are modelled from the specification text, except for
concrete recorded outputs which are embedded verbatim from the notebook.
-/

namespace Cobra

/-- Modelled from the spec (section 3): a metabolite has a unique identifier
and a compartment tag. -/
structure Metabolite where
  id : String
  compartment : String
deriving DecidableEq

/-- Modelled from the spec (section 3): a reaction has an identifier, lower
and upper flux bounds, a sparse stoichiometry (metabolite id paired with a
non-zero signed coefficient), and an objective coefficient. -/
structure Reaction where
  id : String
  lb : ℚ
  ub : ℚ
  stoich : List (String × ℚ)
  objCoeff : ℚ
deriving DecidableEq

/-- Modelled from the spec (section 3): a network model is a set of
reactions, a set of metabolites, and the tag of the designated
external or extracellular compartment. -/
structure Model where
  reactions : List Reaction
  metabolites : List Metabolite
  extTag : String
deriving DecidableEq

/-- First-match lookup in an association list from identifiers to rationals. -/
def lookupA : List (String × ℚ) → String → Option ℚ
  | [], _ => Option.none
  | p :: ps, k => if p.1 = k then some p.2 else lookupA ps k

/-- Modelled from the spec (section 6): a key absent from a medium mapping
counts as a zero upper bound. -/
def valOf (mp : List (String × ℚ)) (k : String) : ℚ :=
  (lookupA mp k).getD 0

/-- First-match lookup of a reaction by identifier. -/
def lookupRxn : List Reaction → String → Option Reaction
  | [], _ => Option.none
  | r :: rs, k => if r.id = k then some r else lookupRxn rs k

/-- The identifiers of a reaction list, in order. -/
def rxnIds (rs : List Reaction) : List String :=
  rs.map Reaction.id

/-- The four classification outcomes of the boundary classifier. -/
inductive RClass where
  | exch
  | demand
  | sink
  | nonBoundary
deriving DecidableEq

/-- Compartment of a metabolite identifier in a model, if the metabolite
exists. -/
def compOf (m : Model) (mid : String) : Option String :=
  (m.metabolites.find? (fun x => x.id == mid)).map Metabolite.compartment

/-- Modelled from the spec (sections 3 and 4.1): the boundary classifier is
a pure function of stoichiometry, compartments and bounds.  A reaction with
exactly one participating metabolite is boundary; it is an exchange when
that metabolite lies in the externally-tagged compartment, otherwise a
demand when its lower bound is non-negative (one-directional sign pattern)
and a sink when its lower bound is negative (bidirectional sign pattern). -/
def classify (m : Model) (r : Reaction) : RClass :=
  match r.stoich with
  | [p] =>
      if compOf m p.1 = some m.extTag then RClass.exch
      else if 0 ≤ r.lb then RClass.demand else RClass.sink
  | _ => RClass.nonBoundary

/-- The property that a reaction has a single participant lying in the
externally-tagged compartment. -/
def extSingle (m : Model) (r : Reaction) : Prop :=
  ∃ p, r.stoich = [p] ∧ compOf m p.1 = some m.extTag

instance (m : Model) (r : Reaction) : Decidable (extSingle m r) := by
  unfold extSingle
  match h : r.stoich with
  | [p] =>
      exact decidable_of_iff (compOf m p.1 = some m.extTag)
        ⟨fun hc => ⟨p, rfl, hc⟩, fun ⟨q, hq, hc⟩ => by
          cases hq; exact hc⟩
  | [] => exact isFalse (fun ⟨q, hq, _⟩ => by cases hq)
  | p :: q :: ps => exact isFalse (fun ⟨x, hx, _⟩ => by cases hx)

/-- Identifiers of the exchange reactions of a model. -/
def exchangeIds (m : Model) : List String :=
  (m.reactions.filter (fun r => decide (classify m r = RClass.exch))).map Reaction.id

/-- Modelled from the spec (section 4.2): reading the medium produces a
snapshot mapping each exchange reaction with non-zero upper bound to that
upper bound.  Stated over an explicit reaction list so that it can be
analysed by induction. -/
def mediumList (m : Model) : List Reaction → List (String × ℚ)
  | [] => []
  | r :: rs =>
      if classify m r = RClass.exch ∧ r.ub ≠ 0 then
        (r.id, r.ub) :: mediumList m rs
      else mediumList m rs

/-- Modelled from the spec (section 4.2): the read-only medium snapshot. -/
def getMedium (m : Model) : List (String × ℚ) :=
  mediumList m m.reactions

/-- Modelled from the spec (section 3): applying a new upper bound to one
exchange reaction; the lower bound is kept unless it would exceed the new
upper bound, in which case it is clamped to the new upper bound so that
lower bound does not exceed upper bound afterwards. -/
def applyEx (newUb : ℚ) (r : Reaction) : Reaction :=
  { r with ub := newUb, lb := if r.lb ≤ newUb then r.lb else newUb }

/-- The per-reaction effect of a medium write: exchange reactions get the
mapped (or zero) upper bound, other reactions are left unchanged. -/
def applyFn (m : Model) (mp : List (String × ℚ)) (r : Reaction) : Reaction :=
  if classify m r = RClass.exch then applyEx (valOf mp r.id) r else r

/-- Modelled from the spec (section 3): the replace-or-zero-out medium
write; exchange reactions present in the mapping get the mapped value as
upper bound, absent exchange reactions get zero, other reactions are left
unchanged. -/
def applyMedium (m : Model) (mp : List (String × ℚ)) : Model :=
  { m with reactions := m.reactions.map (applyFn m mp) }

/-- Errors of the medium writer, modelled from the spec (section 7). -/
inductive MedErr where
  | unknownReaction
  | boundsConflict
deriving DecidableEq

/-- Modelled from the spec (section 4.2): key-by-key validation that every
key of the mapping names a known exchange reaction. -/
def validKeys (m : Model) : List (String × ℚ) → Option MedErr
  | [] => Option.none
  | p :: ps =>
      if p.1 ∈ exchangeIds m then validKeys m ps
      else some MedErr.unknownReaction

/-- True when applying the mapping would have to clamp some lower bound. -/
def clampNeeded (m : Model) (mp : List (String × ℚ)) : Bool :=
  m.reactions.any (fun r =>
    decide (classify m r = RClass.exch ∧ valOf mp r.id < r.lb))

/-- Modelled from the spec (section 4.2): the checked medium writer.
Validation runs before any bound is written, so the update is atomic:
either every bound update is applied or the model is returned unchanged
together with the error. -/
def setMedium (m : Model) (mp : List (String × ℚ)) (strict : Bool) :
    Model × Option MedErr :=
  match validKeys m mp with
  | some e => (m, some e)
  | Option.none =>
      if strict && clampNeeded m mp then (m, some MedErr.boundsConflict)
      else (applyMedium m mp, Option.none)

/-- Single-bound write on a reaction list: the first reaction with the
given identifier gets the given bounds; other reactions are untouched. -/
def setB : List Reaction → String → ℚ → ℚ → List Reaction
  | [], _, _, _ => []
  | r :: rs, k, a, b =>
      if r.id = k then { r with lb := a, ub := b } :: rs
      else r :: setB rs k a b

/-- Single-bound write on a model. -/
def setBound (m : Model) (k : String) (a b : ℚ) : Model :=
  { m with reactions := setB m.reactions k a b }

/-- Current bounds of a reaction identifier, if it exists. -/
def boundsOf (m : Model) (k : String) : Option (ℚ × ℚ) :=
  (lookupRxn m.reactions k).map (fun r => (r.lb, r.ub))

/-- Modelled from the spec (sections 5 and 9): the change-log of a scoped
mutation context, newest entry first, each entry holding a touched target
and its pre-change bounds. -/
abbrev SLog := List (String × Option (ℚ × ℚ))

/-- Undo of one change-log entry. -/
def restoreOne (m : Model) (e : String × Option (ℚ × ℚ)) : Model :=
  match e.2 with
  | some b => setBound m e.1 b.1 b.2
  | Option.none => m

/-- Modelled from the spec (section 5): replaying the change-log entries,
newest first, restores every touched bound to its pre-change value in
reverse order of modification. -/
def restore (m : Model) (log : SLog) : Model :=
  log.foldl restoreOne m

/-- Recording bound write: the pre-change bounds of the target are pushed
on the change-log before the bound is set. -/
def writeB (m : Model) (log : SLog) (k : String) (a b : ℚ) : Model × SLog :=
  (setBound m k a b, (k, boundsOf m k) :: log)

/-- The per-exchange bound updates that a medium write performs, computed
from the pre-write model: for each exchange reaction, the clamped lower
bound and the mapped (or zero) upper bound. -/
def mediumUpdates (m : Model) (mp : List (String × ℚ)) :
    List (String × ℚ × ℚ) :=
  m.reactions.filterMap (fun r =>
    if classify m r = RClass.exch then
      some (r.id,
        (if r.lb ≤ valOf mp r.id then r.lb else valOf mp r.id),
        valOf mp r.id)
    else Option.none)

/-- Folding a list of recording bound writes over a model and change-log. -/
def writeAll : Model → SLog → List (String × ℚ × ℚ) → Model × SLog
  | m, log, [] => (m, log)
  | m, log, u :: us =>
      let p := writeB m log u.1 u.2.1 u.2.2
      writeAll p.1 p.2 us

/-- Modelled from the spec (section 5): the body of a scoped mutation
context is a sequence of commands; bound writes and medium writes mutate
the model, optimization calls read it, an error aborts the rest of the
body, and a nested scope runs its own body with its own change-log. -/
inductive Cmd where
  | setBnd (k : String) (a b : ℚ)
  | setMed (mp : List (String × ℚ)) (strict : Bool)
  | opt
  | err
  | scope (body : List Cmd)

/-- Modelled from the spec (section 5): the scoped interpreter.  Every
bound write inside the active scope is recorded on that scope's change-log;
a failing medium write changes nothing and raises; a raised error aborts
the remaining commands; a nested scope starts a fresh change-log, restores
it on its own exit (before the outer scope restores anything) and
propagates a raised error outward. -/
def runCmds : Model → SLog → List Cmd → Model × SLog × Bool
  | m, log, [] => (m, log, false)
  | m, log, Cmd.setBnd k a b :: cs =>
      runCmds (setBound m k a b) ((k, boundsOf m k) :: log) cs
  | m, log, Cmd.setMed mp strict :: cs =>
      match validKeys m mp with
      | some _ => (m, log, true)
      | Option.none =>
          if strict && clampNeeded m mp then (m, log, true)
          else
            runCmds (writeAll m log (mediumUpdates m mp)).1
              (writeAll m log (mediumUpdates m mp)).2 cs
  | m, log, Cmd.opt :: cs => runCmds m log cs
  | m, log, Cmd.err :: _ => (m, log, true)
  | m, log, Cmd.scope body :: cs =>
      if (runCmds m [] body).2.2 then
        (restore (runCmds m [] body).1 (runCmds m [] body).2.1, log, true)
      else
        runCmds (restore (runCmds m [] body).1 (runCmds m [] body).2.1) log cs
termination_by _ _ cs => sizeOf cs
decreasing_by all_goals simp_wf <;> omega

/-- Modelled from the spec (section 5): running a scoped mutation context:
execute the body with a fresh change-log, then restore every recorded bound
in reverse order of modification, whether the body finished normally or
raised; the raised-error flag is propagated. -/
def runScope (m : Model) (body : List Cmd) : Model × Bool :=
  let q := runCmds m [] body
  (restore q.1 q.2.1, q.2.2)

/-- Heap-like world for the snapshot claim: a model together with the
separately-allocated dictionaries handed out so far. -/
structure World where
  model : Model
  dicts : List (List (String × ℚ))

/-- In-place assignment on an association list, as a dictionary update. -/
def updA : List (String × ℚ) → String → ℚ → List (String × ℚ)
  | [], k, v => [(k, v)]
  | p :: ps, k, v => if p.1 = k then (k, v) :: ps else p :: updA ps k v

/-- Modelled from the spec (section 4.2): reading the medium allocates a
fresh snapshot dictionary, with no back-reference to the model, and returns
a handle to it. -/
def getMediumOp (w : World) : World × Nat :=
  ({ w with dicts := w.dicts ++ [getMedium w.model] }, w.dicts.length)

/-- Assigning to a dictionary handle mutates only that dictionary. -/
def dictAssign (w : World) (i : Nat) (k : String) (v : ℚ) : World :=
  { w with dicts := w.dicts.set i (updA (w.dicts.getD i []) k v) }

/-- A flux assignment: one rational flux per reaction identifier. -/
def FluxVec := String → ℚ

/-- Stoichiometric coefficient of a metabolite in a reaction (zero when the
metabolite does not participate). -/
def coeffOf (r : Reaction) (mid : String) : ℚ :=
  (lookupA r.stoich mid).getD 0

/-- Modelled from the spec (section 4.3): every flux lies within its
reaction's bounds. -/
def withinBounds (m : Model) (v : FluxVec) : Prop :=
  ∀ r ∈ m.reactions, r.lb ≤ v r.id ∧ v r.id ≤ r.ub

/-- Modelled from the spec (section 4.3): steady-state mass balance, one
equality per metabolite. -/
def massBalanced (m : Model) (v : FluxVec) : Prop :=
  ∀ mt ∈ m.metabolites,
    (m.reactions.map (fun r => coeffOf r mt.id * v r.id)).sum = 0

/-- Modelled from the spec (section 4.3): the feasible region of the base
linear program. -/
def feasible (m : Model) (v : FluxVec) : Prop :=
  withinBounds m v ∧ massBalanced m v

/-- Modelled from the spec (section 4.3): the objective value of a flux
assignment. -/
def objVal (m : Model) (v : FluxVec) : ℚ :=
  (m.reactions.map (fun r => r.objCoeff * v r.id)).sum

/-- Modelled from the spec (section 4.3): an optimal outcome of the base
program, as reported by the Optimization Backend on status optimal. -/
def IsOptimal (m : Model) (v : FluxVec) : Prop :=
  feasible m v ∧ ∀ w, feasible m w → objVal m w ≤ objVal m v

/-- The exchange reactions of a model. -/
def exchangesOf (m : Model) : List Reaction :=
  m.reactions.filter (fun r => decide (classify m r = RClass.exch))

/-- Modelled from the spec (section 4.4): the import magnitude of an
exchange reaction is the uptake (negative-flux) component of its flux. -/
def importMag (v : FluxVec) (r : Reaction) : ℚ :=
  max 0 (-(v r.id))

/-- Modelled from the spec (section 4.4): total import flux across the
exchange reactions. -/
def totalImport (m : Model) (v : FluxVec) : ℚ :=
  ((exchangesOf m).map (importMag v)).sum

/-- Modelled from the spec (section 4.4): the number of active imports of a
flux assignment. -/
def activeImports (m : Model) (v : FluxVec) : Nat :=
  ((exchangesOf m).filter (fun r => decide (0 < importMag v r))).length

/-- Modelled from the spec (section 4.4): a flux assignment achieving at
least the target objective floor while staying feasible. -/
def achieves (m : Model) (gmin : ℚ) (v : FluxVec) : Prop :=
  feasible m v ∧ gmin ≤ objVal m v

/-- Modelled from the spec (section 4.4, LP mode): an optimal outcome of
the derived program minimising total weighted import flux subject to the
objective floor. -/
def IsLPMinMedium (m : Model) (gmin : ℚ) (v : FluxVec) : Prop :=
  achieves m gmin v ∧ ∀ w, achieves m gmin w → totalImport m v ≤ totalImport m w

/-- Modelled from the spec (section 4.4, MIP mode): an optimal outcome of
the derived program minimising the count of active imports subject to the
objective floor. -/
def IsMIPMinMedium (m : Model) (gmin : ℚ) (v : FluxVec) : Prop :=
  achieves m gmin v ∧ ∀ w, achieves m gmin w → activeImports m v ≤ activeImports m w

/-- Modelled from the spec (sections 4.4 and 6): the single-solution
minimal-medium result shape, a mapping from exchange identifier to the
attained import magnitude, with exactly-zero entries excluded. -/
def lpResult (m : Model) (v : FluxVec) : List (String × ℚ) :=
  (exchangesOf m).filterMap (fun r =>
    if importMag v r = 0 then Option.none else some (r.id, importMag v r))

/-- A zero-free mapping: no entry has value exactly zero. -/
def zeroFree (mp : List (String × ℚ)) : Prop :=
  ∀ p ∈ mp, p.2 ≠ 0

/-- One solution of the minimal-import-count MIP, as reported by the
backend: its active-indicator support and its import magnitudes. -/
structure MSol where
  support : List String
  imports : List (String × ℚ)
deriving DecidableEq

/-- Set equality of two support lists. -/
def sameSet (a b : List String) : Prop :=
  (∀ x ∈ a, x ∈ b) ∧ (∀ x ∈ b, x ∈ a)

instance (a b : List String) : Decidable (sameSet a b) := by
  unfold sameSet; infer_instance

/-- Modelled from the spec (section 4.4): the Optimization Backend is
abstracted as an oracle mapping an accumulated list of no-good cuts (each a
forbidden support) to a next solution, or to no solution when the
cut-augmented program is infeasible.  The oracle respects cuts when it
never returns a solution whose support coincides, as a set, with a cut. -/
def CutRespecting (solve : List (List String) → Option MSol) : Prop :=
  ∀ cuts s, solve cuts = some s → ∀ c ∈ cuts, ¬ sameSet s.support c

/-- Modelled from the spec (section 4.4): the enumeration loop.  Each
iteration re-solves under the accumulated cuts; a returned solution is
collected and turned into a new no-good cut only when its indicator count
matches the best known objective, and the loop stops on infeasibility, on a
worse indicator count, or when the requested number of alternatives has
been collected. -/
def enumLoop (solve : List (List String) → Option MSol) :
    Nat → List (List String) → Nat → List MSol → List MSol
  | 0, _, _, acc => acc.reverse
  | Nat.succ k, cuts, best, acc =>
      match solve cuts with
      | Option.none => acc.reverse
      | some s =>
          if s.support.length = best then
            enumLoop solve k (s.support :: cuts) best (s :: acc)
          else acc.reverse

/-- Modelled from the spec (section 4.4): alternative enumeration of up to
k minimal-support solutions; the first solve fixes the optimal indicator
count. -/
def enumMedia (solve : List (List String) → Option MSol) (k : Nat) :
    List MSol :=
  match k with
  | 0 => []
  | Nat.succ k2 =>
      match solve [] with
      | Option.none => []
      | some s0 => enumLoop solve k2 [s0.support] s0.support.length [s0]

/-- A concrete cut-respecting oracle over a finite candidate list: return
the first candidate whose support is not excluded by a cut. -/
def listSolve (cands : List MSol) (cuts : List (List String)) : Option MSol :=
  (cands.filter (fun c => decide (∀ x ∈ cuts, ¬ sameSet c.support x))).head?

/-- The union of the key sets of the alternatives, first appearance first. -/
def unionKeys (alts : List (List (String × ℚ))) : List String :=
  (alts.flatMap (fun a => a.map Prod.fst)).dedup

/-- The tabular form in which the enumeration run of the documentation
notebook reports its alternatives: one row per exchange reaction active in
at least one alternative, one column per alternative in discovery order,
and value zero where an alternative does not use that exchange. -/
def enumTable (alts : List (List (String × ℚ))) : List (String × List ℚ) :=
  (unionKeys alts).map (fun k => (k, alts.map (fun a => valOf a k)))

/-- The alternatives table returned by the recorded documentation run
of minimal-medium enumeration on the textbook model with target 0.8,
minimize-components 8 and open exchanges, embedded verbatim from
src/documentation_builder/media.ipynb (cell-18): one row per exchange
reaction, one column per alternative found. -/
def cell18Table : List (String × List ℚ) :=
  [ ("EX_fru_e",    [0, 521357767/1000000, 0, 0]),
    ("EX_glc__D_e", [0, 0, 0, 519750758/1000000]),
    ("EX_gln__L_e", [0, 40698058/1000000, 18848678/1000000, 0]),
    ("EX_glu__L_e", [348101944/1000000, 0, 0, 0]),
    ("EX_mal__L_e", [0, 0, 1000, 0]),
    ("EX_nh4_e",    [0, 0, 0, 81026921/1000000]),
    ("EX_o2_e",     [500, 0, 0, 0]),
    ("EX_pi_e",     [66431529/1000000, 54913419/1000000, 12583458/1000000, 54664344/1000000]) ]

/-- The recorded enumeration result of cell-18 read as the sequence of its
per-alternative mappings, in discovery order. -/
def cell18Alts : List (List (String × ℚ)) :=
  (List.range 4).map (fun j => cell18Table.map (fun row => (row.1, row.2.getD j 0)))

/-- A small concrete model with two exchange reactions (external metabolites
A and A2), an internal conversion, a demand and a sink, used to instantiate
the medium-view theorems. -/
def demoModel : Model :=
  { reactions :=
      [ { id := "EX_a", lb := -10, ub := 10, stoich := [("A", -1)], objCoeff := 0 },
        { id := "EX_b", lb := -10, ub := 0, stoich := [("A2", -1)], objCoeff := 0 },
        { id := "CONV", lb := 0, ub := 5, stoich := [("A", 1), ("B", -1)], objCoeff := 1 },
        { id := "DM_b", lb := 0, ub := 5, stoich := [("B", -1)], objCoeff := 0 },
        { id := "SK_b", lb := -5, ub := 5, stoich := [("B", -1)], objCoeff := 0 } ],
    metabolites :=
      [ { id := "A", compartment := "e" },
        { id := "A2", compartment := "e" },
        { id := "B", compartment := "c" } ],
    extTag := "e" }

/-- A valid medium mapping on the demo model, with one zero entry. -/
def demoMedium : List (String × ℚ) := [("EX_a", 5), ("EX_b", 0)]

/-- A medium mapping with an unknown key. -/
def demoBad : List (String × ℚ) := [("bogus", 1)]

/-- The first exchange reaction of the demo model. -/
def demoEx : Reaction :=
  { id := "EX_a", lb := -10, ub := 10, stoich := [("A", -1)], objCoeff := 0 }

/-- The exchange reaction of the small flux model. -/
def rEXA : Reaction :=
  { id := "EX_A", lb := -10, ub := 0, stoich := [("A", -1)], objCoeff := 0 }

/-- The growth reaction of the small flux model. -/
def rGROW : Reaction :=
  { id := "GROW", lb := 0, ub := 10, stoich := [("A", -1), ("X", 1)], objCoeff := 1 }

/-- The internal drain of the small flux model. -/
def rDRAIN : Reaction :=
  { id := "DRAIN", lb := 0, ub := 20, stoich := [("X", -1)], objCoeff := 0 }

/-- A concrete flux-balance model with one exchange import (EX_A), one
growth reaction and one internal drain, used to instantiate the
minimal-medium optimality theorems. -/
def mFlux : Model :=
  { reactions := [rEXA, rGROW, rDRAIN],
    metabolites :=
      [ { id := "A", compartment := "e" },
        { id := "X", compartment := "c" } ],
    extTag := "e" }

/-- The optimal flux assignment of mFlux: full import of A, growth 10. -/
def vStar : FluxVec :=
  fun s => if s = "EX_A" then -10 else if s = "GROW" then 10 else if s = "DRAIN" then 10 else 0

/-- An internal source of metabolite B for the clamp model. -/
def rSRCB : Reaction :=
  { id := "SRCB", lb := 0, ub := 10, stoich := [("B", 1)], objCoeff := 0 }

/-- Conversion of B into the external metabolite A for the clamp model. -/
def rPROD : Reaction :=
  { id := "PROD", lb := 0, ub := 10, stoich := [("B", -1), ("A", 1)], objCoeff := 0 }

/-- The exchange reaction of the clamp model; its positive lower bound 5
forces export of A. -/
def rEXC : Reaction :=
  { id := "EX_A", lb := 5, ub := 10, stoich := [("A", -1)], objCoeff := 0 }

/-- The objective reaction of the clamp model, competing for A. -/
def rOBJ : Reaction :=
  { id := "OBJ", lb := 0, ub := 10, stoich := [("A", -1), ("C", 1)], objCoeff := 1 }

/-- An internal drain of metabolite C for the clamp model. -/
def rDRC : Reaction :=
  { id := "DRC", lb := 0, ub := 10, stoich := [("C", -1)], objCoeff := 0 }

/-- A concrete model on which a medium write must clamp a positive lower
bound: the exchange EX_A carries a forced export (lower bound 5), supplied
by an internal production chain, while the objective competes for the same
metabolite. -/
def mClamp : Model :=
  { reactions := [rSRCB, rPROD, rEXC, rOBJ, rDRC],
    metabolites :=
      [ { id := "A", compartment := "e" },
        { id := "B", compartment := "c" },
        { id := "C", compartment := "c" } ],
    extTag := "e" }

/-- The wide medium for mClamp. -/
def mClampBig : List (String × ℚ) := [("EX_A", 10)]

/-- The shrunken medium for mClamp; applying it clamps the lower bound of
EX_A from 5 down to 3. -/
def mClampSmall : List (String × ℚ) := [("EX_A", 3)]

/-- Optimal assignment of mClamp under the wide medium. -/
def vBig : FluxVec :=
  fun s => if s = "SRCB" then 10 else if s = "PROD" then 10
    else if s = "EX_A" then 5 else if s = "OBJ" then 5
    else if s = "DRC" then 5 else 0

/-- Optimal assignment of mClamp under the shrunken medium. -/
def vSmall : FluxVec :=
  fun s => if s = "SRCB" then 10 else if s = "PROD" then 10
    else if s = "EX_A" then 3 else if s = "OBJ" then 7
    else if s = "DRC" then 7 else 0

/-- The clamp model after applying the shrunken medium: the exchange has
upper bound 3 and its lower bound has been clamped from 5 to 3. -/
def mClampS : Model :=
  { reactions :=
      [ rSRCB, rPROD,
        { id := "EX_A", lb := 3, ub := 3, stoich := [("A", -1)], objCoeff := 0 },
        rOBJ, rDRC ],
    metabolites := mClamp.metabolites,
    extTag := "e" }

/-- The media used by the monotonicity witness on mFlux. -/
def mFluxBig : List (String × ℚ) := [("EX_A", 10)]

/-- A pointwise smaller medium for mFlux. -/
def mFluxSmall : List (String × ℚ) := [("EX_A", 3)]

/-- The flux model after opening EX_A to upper bound 10. -/
def mFluxB : Model :=
  { reactions :=
      [ { id := "EX_A", lb := -10, ub := 10, stoich := [("A", -1)], objCoeff := 0 },
        rGROW, rDRAIN ],
    metabolites := mFlux.metabolites,
    extTag := "e" }

/-- The flux model after opening EX_A to upper bound 3. -/
def mFluxS : Model :=
  { reactions :=
      [ { id := "EX_A", lb := -10, ub := 3, stoich := [("A", -1)], objCoeff := 0 },
        rGROW, rDRAIN ],
    metabolites := mFlux.metabolites,
    extTag := "e" }

/-- Two concrete MIP solutions with equal indicator count and different
supports, used as the candidate set of the enumeration witness. -/
def demoCands : List MSol :=
  [ { support := ["EX_a"], imports := [("EX_a", 2)] },
    { support := ["EX_b"], imports := [("EX_b", 3)] } ]

/-- Two concrete zero-free alternatives for the result-format witness. -/
def demoAlts : List (List (String × ℚ)) :=
  [[("EX_a", 2)], [("EX_b", 3)]]

/-- A concrete world holding the demo model and no allocated dictionaries. -/
def demoWorld : World :=
  { model := demoModel, dicts := [] }

/-- A concrete scope body performing a medium write and then raising. -/
def demoBody : List Cmd :=
  [Cmd.setMed demoMedium false, Cmd.opt, Cmd.scope [Cmd.setBnd ("EX_a") 0 0], Cmd.err]

/-! Helper lemmas about bound writes and the change-log. -/

theorem setB_absent (rs : List Reaction) (k : String) (a b : ℚ)
    (h : lookupRxn rs k = Option.none) : setB rs k a b = rs := by
  induction rs with
  | nil => rfl
  | cons x xs ih =>
      by_cases hx : x.id = k
      · simp [lookupRxn, hx] at h
      · simp only [lookupRxn, hx, if_neg, ite_false] at h
        simp [setB, hx, ih h]

theorem setB_cancel (rs : List Reaction) (k : String) (a b : ℚ) (r : Reaction)
    (h : lookupRxn rs k = some r) :
    setB (setB rs k a b) k r.lb r.ub = rs := by
  induction rs with
  | nil => simp [lookupRxn] at h
  | cons x xs ih =>
      by_cases hx : x.id = k
      · simp only [lookupRxn, hx, ite_true, Option.some.injEq] at h
        subst h
        simp [setB, hx]
        rw [← hx]
      · simp only [lookupRxn, hx, ite_false] at h
        simp [setB, hx, ih h]

theorem restoreOne_write (m : Model) (k : String) (a b : ℚ) :
    restoreOne (setBound m k a b) (k, boundsOf m k) = m := by
  cases h : lookupRxn m.reactions k with
  | none =>
      have hb : boundsOf m k = Option.none := by simp [boundsOf, h]
      rw [hb]
      show setBound m k a b = m
      simp [setBound, setB_absent _ _ _ _ h]
  | some r =>
      have hb : boundsOf m k = some (r.lb, r.ub) := by simp [boundsOf, h]
      rw [hb]
      show setBound (setBound m k a b) k r.lb r.ub = m
      simp [setBound, setB_cancel _ _ a b _ h]

theorem restore_cons (m : Model) (e : String × Option (ℚ × ℚ)) (log : SLog) :
    restore m (e :: log) = restore (restoreOne m e) log := rfl

theorem restore_writeAll (us : List (String × ℚ × ℚ)) :
    ∀ (m : Model) (log : SLog),
      restore (writeAll m log us).1 (writeAll m log us).2 = restore m log := by
  induction us with
  | nil => intro m log; rfl
  | cons u us ih =>
      intro m log
      simp only [writeAll, writeB]
      rw [ih, restore_cons, restoreOne_write]

theorem restore_runCmds (m : Model) (log : SLog) (cs : List Cmd) :
    restore (runCmds m log cs).1 (runCmds m log cs).2.1 = restore m log := by
  induction m, log, cs using runCmds.induct with
  | case1 m log => simp [runCmds]
  | case2 m log k a b cs ih =>
      simp only [runCmds]
      rw [ih, restore_cons, restoreOne_write]
  | case3 m log mp strict cs e hv =>
      simp [runCmds, hv]
  | case4 m log mp strict cs hv hc =>
      simp [runCmds, hv, hc]
  | case5 m log mp strict cs hv hc ih =>
      simp only [runCmds, hv, hc]
      simp only [Bool.false_eq_true, if_false]
      rw [ih, restore_writeAll]
  | case6 m log cs ih =>
      simpa only [runCmds] using ih
  | case7 m log cs => simp [runCmds]
  | case8 m log body cs hb ihBody =>
      simp only [runCmds, hb, if_true]
      rw [ihBody]
      rfl
  | case9 m log body cs hb ihBody ihRest =>
      simp only [runCmds, hb]
      simp only [Bool.false_eq_true, if_false]
      rw [ihRest, ihBody]
      rfl

/-! Helper lemmas about reaction lookup, classification and the medium. -/

theorem lookupRxn_some_spec (rs : List Reaction) (k : String) (r : Reaction)
    (h : lookupRxn rs k = some r) : r ∈ rs ∧ r.id = k := by
  induction rs with
  | nil => simp [lookupRxn] at h
  | cons x xs ih =>
      by_cases hx : x.id = k
      · simp only [lookupRxn, hx, ite_true, Option.some.injEq] at h
        subst h
        exact ⟨List.mem_cons_self _ _, hx⟩
      · simp only [lookupRxn, hx, ite_false] at h
        rcases ih h with ⟨h1, h2⟩
        exact ⟨List.mem_cons_of_mem _ h1, h2⟩

theorem lookupRxn_none_iff (rs : List Reaction) (k : String) :
    lookupRxn rs k = Option.none ↔ k ∉ rxnIds rs := by
  induction rs with
  | nil => simp [lookupRxn, rxnIds]
  | cons x xs ih =>
      by_cases hx : x.id = k
      · simp [lookupRxn, hx, rxnIds]
      · simp [lookupRxn, hx, rxnIds, Ne.symm hx] at ih ⊢
        simpa [rxnIds] using ih

theorem lookupRxn_of_mem (rs : List Reaction) (r : Reaction)
    (hnd : (rxnIds rs).Nodup) (hm : r ∈ rs) : lookupRxn rs r.id = some r := by
  induction rs with
  | nil => simp at hm
  | cons x xs ih =>
      rcases List.mem_cons.mp hm with h1 | h2
      · subst h1
        simp [lookupRxn]
      · have hnd2 := hnd
        rw [rxnIds, List.map_cons, List.nodup_cons] at hnd2
        have hx : x.id ≠ r.id := by
          intro he
          exact hnd2.1 (he ▸ List.mem_map_of_mem Reaction.id h2)
        simp only [lookupRxn, hx, ite_false]
        exact ih hnd2.2 h2

theorem lookupRxn_map (f : Reaction → Reaction) (hf : ∀ r, (f r).id = r.id)
    (rs : List Reaction) (k : String) :
    lookupRxn (rs.map f) k = (lookupRxn rs k).map f := by
  induction rs with
  | nil => rfl
  | cons x xs ih =>
      by_cases hx : x.id = k
      · simp [lookupRxn, hf, hx]
      · simp [lookupRxn, hf, hx, ih]

theorem rxnIds_map (f : Reaction → Reaction) (hf : ∀ r, (f r).id = r.id)
    (rs : List Reaction) : rxnIds (rs.map f) = rxnIds rs := by
  induction rs with
  | nil => rfl
  | cons x xs ih =>
      simp only [rxnIds, List.map_cons] at ih ⊢
      rw [hf x, ih]

theorem classify_reactions_irrel (m : Model) (rs : List Reaction) (r : Reaction) :
    classify { m with reactions := rs } r = classify m r := rfl

theorem stoich_applyEx (u : ℚ) (r : Reaction) : (applyEx u r).stoich = r.stoich := rfl

theorem id_applyEx (u : ℚ) (r : Reaction) : (applyEx u r).id = r.id := rfl

theorem id_applyFn (m : Model) (mp : List (String × ℚ)) (r : Reaction) :
    (applyFn m mp r).id = r.id := by
  unfold applyFn
  split <;> rfl

theorem classify_applyEx_exch (m : Model) (u : ℚ) (r : Reaction)
    (h : classify m r = RClass.exch) :
    classify m (applyEx u r) = RClass.exch := by
  unfold classify at h ⊢
  rw [stoich_applyEx]
  cases hs : r.stoich with
  | nil => rw [hs] at h; simp at h
  | cons p ps =>
      cases ps with
      | nil =>
          rw [hs] at h
          by_cases hc : compOf m p.1 = some m.extTag
          · simp [hc]
          · simp only [hc, ite_false] at h
            split at h <;> simp_all
      | cons q qs => rw [hs] at h; simp at h

theorem classify_applyFn_iff (m : Model) (mp : List (String × ℚ)) (r : Reaction) :
    classify m (applyFn m mp r) = RClass.exch ↔ classify m r = RClass.exch := by
  unfold applyFn
  by_cases h : classify m r = RClass.exch
  · rw [if_pos h]
    constructor
    · intro _
      exact h
    · intro _
      exact classify_applyEx_exch m _ r h
  · simp [h]

theorem mem_exchangeIds (m : Model) (k : String) :
    k ∈ exchangeIds m ↔ ∃ r ∈ m.reactions, classify m r = RClass.exch ∧ r.id = k := by
  unfold exchangeIds
  simp only [List.mem_map, List.mem_filter, decide_eq_true_eq]
  constructor
  · rintro ⟨r, ⟨h1, h2⟩, h3⟩
    exact ⟨r, h1, h2, h3⟩
  · rintro ⟨r, h1, h2, h3⟩
    exact ⟨r, ⟨h1, h2⟩, h3⟩

theorem exchangeIds_sub (m : Model) (k : String) (h : k ∈ exchangeIds m) :
    k ∈ rxnIds m.reactions := by
  rcases (mem_exchangeIds m k).mp h with ⟨r, h1, _, h3⟩
  exact h3 ▸ List.mem_map_of_mem Reaction.id h1

theorem lookupA_mediumList (m : Model) (rs : List Reaction)
    (hnd : (rxnIds rs).Nodup) (k : String) :
    lookupA (mediumList m rs) k =
      (match lookupRxn rs k with
       | some r =>
           if classify m r = RClass.exch ∧ r.ub ≠ 0 then some r.ub else Option.none
       | Option.none => Option.none) := by
  induction rs with
  | nil => rfl
  | cons x xs ih =>
      have hnd2 := hnd
      rw [rxnIds, List.map_cons, List.nodup_cons] at hnd2
      by_cases hx : x.id = k
      · by_cases hcx : classify m x = RClass.exch ∧ x.ub ≠ 0
        · simp [mediumList, hcx, lookupA, lookupRxn, hx]
        · have hnone : lookupRxn xs k = Option.none := by
            rw [lookupRxn_none_iff]
            rw [← hx]
            simpa [rxnIds] using hnd2.1
          simp [mediumList, hcx, lookupRxn, hx, ih hnd2.2, hnone]
      · by_cases hcx : classify m x = RClass.exch ∧ x.ub ≠ 0
        · simp [mediumList, hcx, lookupA, lookupRxn, hx, ih hnd2.2]
        · simp [mediumList, hcx, lookupRxn, hx, ih hnd2.2]

theorem lookupA_some_spec (ps : List (String × ℚ)) (k : String) (v : ℚ)
    (h : lookupA ps k = some v) : ∃ p ∈ ps, p.1 = k ∧ p.2 = v := by
  induction ps with
  | nil => simp [lookupA] at h
  | cons p ps ih =>
      by_cases hp : p.1 = k
      · simp only [lookupA, hp, ite_true, Option.some.injEq] at h
        exact ⟨p, List.mem_cons_self _ _, hp, h⟩
      · simp only [lookupA, hp, ite_false] at h
        rcases ih h with ⟨q, h1, h2⟩
        exact ⟨q, List.mem_cons_of_mem _ h1, h2⟩

theorem mem_mediumList (m : Model) (rs : List Reaction) (q : String × ℚ)
    (hq : q ∈ mediumList m rs) :
    ∃ r ∈ rs, classify m r = RClass.exch ∧ r.ub ≠ 0 ∧ q = (r.id, r.ub) := by
  induction rs with
  | nil => simp [mediumList] at hq
  | cons x xs ih =>
      by_cases hx : classify m x = RClass.exch ∧ x.ub ≠ 0
      · rw [mediumList, if_pos hx] at hq
        rcases List.mem_cons.mp hq with h | h
        · exact ⟨x, List.mem_cons_self _ _, hx.1, hx.2, h⟩
        · rcases ih h with ⟨r, h1, h2⟩
          exact ⟨r, List.mem_cons_of_mem _ h1, h2⟩
      · rw [mediumList, if_neg hx] at hq
        rcases ih hq with ⟨r, h1, h2⟩
        exact ⟨r, List.mem_cons_of_mem _ h1, h2⟩

theorem validKeys_some_iff (m : Model) (mp : List (String × ℚ)) :
    validKeys m mp = some MedErr.unknownReaction ↔
      ∃ p ∈ mp, p.1 ∉ exchangeIds m := by
  induction mp with
  | nil => simp [validKeys]
  | cons p ps ih =>
      by_cases hp : p.1 ∈ exchangeIds m
      · rw [validKeys, if_pos hp, ih]
        constructor
        · rintro ⟨q, h1, h2⟩
          exact ⟨q, List.mem_cons_of_mem _ h1, h2⟩
        · rintro ⟨q, h1, h2⟩
          rcases List.mem_cons.mp h1 with h3 | h3
          · subst h3; exact absurd hp h2
          · exact ⟨q, h3, h2⟩
      · rw [validKeys, if_neg hp]
        simp only [true_iff]
        exact ⟨p, List.mem_cons_self _ _, hp⟩

/-! Claim theorems. -/

/-- C1: for every model and every scoped mutation context — its body an
arbitrary command sequence that may write single bounds, perform medium
writes and optimization calls, raise an error at any point and open nested
scopes — the model after the scope exits (whether by normal return or by a
raised error) equals the model before the scope was entered, every touched
bound having been restored from the change-log in reverse order of
modification; nested scopes compose because a nested scope restores its
own change-log before control returns to the outer scope. -/
theorem scoped_mutation_restores (m : Model) (body : List Cmd) :
    (runScope m body).1 = m := by
  show restore (runCmds m [] body).1 (runCmds m [] body).2.1 = m
  rw [restore_runCmds]
  rfl

/-- C2: for every model (with distinct reaction identifiers) and every
medium mapping whose keys are exchange-reaction identifiers, writing the
medium and then reading it back yields exactly the written mapping with
its zero-valued entries removed: a key mapped to zero is absent from the
returned snapshot. -/
theorem set_get_medium_roundtrip (m : Model) (mp : List (String × ℚ))
    (hnd : (rxnIds m.reactions).Nodup)
    (hkeys : ∀ p ∈ mp, p.1 ∈ exchangeIds m) :
    ∀ k, lookupA (getMedium (applyMedium m mp)) k =
      (match lookupA mp k with
       | some v => if v = 0 then Option.none else some v
       | Option.none => Option.none) := by
  intro k
  have hidf : ∀ r, (applyFn m mp r).id = r.id := id_applyFn m mp
  have hre : (applyMedium m mp).reactions = m.reactions.map (applyFn m mp) := rfl
  have hnd2 : (rxnIds (applyMedium m mp).reactions).Nodup := by
    rw [hre, rxnIds_map _ hidf]
    exact hnd
  have hmain := lookupA_mediumList (applyMedium m mp)
    (applyMedium m mp).reactions hnd2 k
  have hlr : lookupRxn (applyMedium m mp).reactions k
      = (lookupRxn m.reactions k).map (applyFn m mp) := by
    rw [hre]
    exact lookupRxn_map _ hidf _ k
  have hcl : ∀ x, classify (applyMedium m mp) x = classify m x :=
    fun x => classify_reactions_irrel m _ x
  show lookupA (mediumList (applyMedium m mp) (applyMedium m mp).reactions) k = _
  rw [hmain, hlr]
  cases hr : lookupRxn m.reactions k with
  | none =>
      have hmpk : lookupA mp k = Option.none := by
        cases hA : lookupA mp k with
        | none => rfl
        | some v =>
            rcases lookupA_some_spec mp k v hA with ⟨p, hp1, hp2, _⟩
            have hkx : k ∈ exchangeIds m := hp2 ▸ hkeys p hp1
            have hkr : k ∈ rxnIds m.reactions := exchangeIds_sub m k hkx
            exact absurd ((lookupRxn_none_iff _ _).mp hr) (by simp [hkr])
      rw [hmpk]
      rfl
  | some r =>
      rcases lookupRxn_some_spec _ _ _ hr with ⟨hmem, hid⟩
      by_cases hex : classify m r = RClass.exch
      · have hfn : applyFn m mp r = applyEx (valOf mp r.id) r := if_pos hex
        have hcx : classify (applyMedium m mp) (applyFn m mp r) = RClass.exch := by
          rw [hcl]
          exact (classify_applyFn_iff m mp r).mpr hex
        have hub : (applyFn m mp r).ub = valOf mp k := by rw [hfn, ← hid]; rfl
        show (if classify (applyMedium m mp) (applyFn m mp r) = RClass.exch
              ∧ (applyFn m mp r).ub ≠ 0 then some (applyFn m mp r).ub
             else Option.none) = _
        simp only [hcx, hub, true_and]
        unfold valOf
        cases hA : lookupA mp k with
        | none => simp
        | some v =>
            by_cases hv : v = 0
            · simp [hv]
            · simp [hv]
      · have hcx : ¬ (classify (applyMedium m mp) (applyFn m mp r) = RClass.exch) := by
          rw [hcl]
          intro hcon
          exact hex ((classify_applyFn_iff m mp r).mp hcon)
        have hmpk : lookupA mp k = Option.none := by
          cases hA : lookupA mp k with
          | none => rfl
          | some v =>
              rcases lookupA_some_spec mp k v hA with ⟨p, hp1, hp2, _⟩
              have hkx : k ∈ exchangeIds m := hp2 ▸ hkeys p hp1
              rcases (mem_exchangeIds m k).mp hkx with ⟨rx, hrx1, hrx2, hrx3⟩
              have hlx : lookupRxn m.reactions k = some rx := by
                rw [← hrx3]
                exact lookupRxn_of_mem _ _ hnd hrx1
              rw [hr] at hlx
              cases hlx
              exact absurd hrx2 hex
        rw [hmpk]
        show (if classify (applyMedium m mp) (applyFn m mp r) = RClass.exch
              ∧ (applyFn m mp r).ub ≠ 0 then some (applyFn m mp r).ub
             else Option.none) = _
        simp [hcx]

/-- C4: the checked medium writer fails with an unknown-reaction error
whenever some key of the mapping is not a known exchange-reaction
identifier, and it is atomic: on any failure (unknown key, or a bounds
conflict under the strict setting) the model is returned unchanged, while
on success the full replace-or-zero-out update is applied. -/
theorem set_medium_atomic (m : Model) (mp : List (String × ℚ)) (strict : Bool) :
    ((∃ p ∈ mp, p.1 ∉ exchangeIds m) →
        setMedium m mp strict = (m, some MedErr.unknownReaction)) ∧
    (∀ e, (setMedium m mp strict).2 = some e → (setMedium m mp strict).1 = m) ∧
    ((setMedium m mp strict).2 = Option.none →
        (setMedium m mp strict).1 = applyMedium m mp) := by
  refine ⟨?_, ?_, ?_⟩
  · intro hbad
    have hv := (validKeys_some_iff m mp).mpr hbad
    simp [setMedium, hv]
  · intro e he
    unfold setMedium at he ⊢
    cases hv : validKeys m mp with
    | some e2 => rfl
    | none =>
        rw [hv] at he
        show (if (strict && clampNeeded m mp) = true
              then (m, some MedErr.boundsConflict)
              else (applyMedium m mp, Option.none)).1 = m
        have he2 : (if (strict && clampNeeded m mp) = true
              then (m, some MedErr.boundsConflict)
              else (applyMedium m mp, Option.none)).2 = some e := he
        by_cases hs : (strict && clampNeeded m mp) = true
        · rw [if_pos hs]
        · rw [if_neg hs] at he2
          cases he2
  · intro hn
    unfold setMedium at hn ⊢
    cases hv : validKeys m mp with
    | some e2 =>
        rw [hv] at hn
        simp at hn
    | none =>
        rw [hv] at hn
        show (if (strict && clampNeeded m mp) = true
              then (m, some MedErr.boundsConflict)
              else (applyMedium m mp, Option.none)).1 = applyMedium m mp
        have hn2 : (if (strict && clampNeeded m mp) = true
              then (m, some MedErr.boundsConflict)
              else (applyMedium m mp, Option.none)).2 = Option.none := hn
        by_cases hs : (strict && clampNeeded m mp) = true
        · rw [if_pos hs] at hn2
          cases hn2
        · rw [if_neg hs]

/-- C5: for every model (with distinct reaction identifiers), applying a
medium mapping gives each exchange reaction present in the mapping the
mapped value as its new upper bound and each absent exchange reaction the
upper bound zero; the lower bound is left untouched unless it would exceed
the new upper bound — in particular a negative lower bound above the new
upper bound — in which case it is clamped to the new upper bound within
the same update, so that lower bound is at most upper bound for every
exchange reaction afterwards. -/
theorem apply_medium_bounds (m : Model) (mp : List (String × ℚ)) (r : Reaction)
    (hnd : (rxnIds m.reactions).Nodup) (hr : r ∈ m.reactions)
    (hex : classify m r = RClass.exch) :
    ∃ r2, lookupRxn (applyMedium m mp).reactions r.id = some r2 ∧
      r2.id = r.id ∧ r2.stoich = r.stoich ∧
      r2.ub = valOf mp r.id ∧
      (lookupA mp r.id = Option.none → r2.ub = 0) ∧
      r2.lb = (if r.lb ≤ valOf mp r.id then r.lb else valOf mp r.id) ∧
      (r.lb ≤ valOf mp r.id → r2.lb = r.lb) ∧
      r2.lb ≤ r2.ub := by
  have hidf : ∀ x, (applyFn m mp x).id = x.id := id_applyFn m mp
  have hre : (applyMedium m mp).reactions = m.reactions.map (applyFn m mp) := rfl
  have hlook : lookupRxn (applyMedium m mp).reactions r.id
      = some (applyFn m mp r) := by
    rw [hre, lookupRxn_map _ hidf, lookupRxn_of_mem _ _ hnd hr]
    rfl
  have hfn : applyFn m mp r = applyEx (valOf mp r.id) r := if_pos hex
  refine ⟨applyFn m mp r, hlook, hidf r, ?_, ?_, ?_, ?_, ?_, ?_⟩
  · rw [hfn]; rfl
  · rw [hfn]; rfl
  · intro ha
    rw [hfn]
    show valOf mp r.id = 0
    unfold valOf
    rw [ha]
    rfl
  · rw [hfn]; rfl
  · intro hle
    rw [hfn]
    show (if r.lb ≤ valOf mp r.id then r.lb else valOf mp r.id) = r.lb
    rw [if_pos hle]
  · rw [hfn]
    show (if r.lb ≤ valOf mp r.id then r.lb else valOf mp r.id) ≤ valOf mp r.id
    by_cases hle : r.lb ≤ valOf mp r.id
    · rw [if_pos hle]; exact hle
    · rw [if_neg hle]

/-- C6: reading the medium returns a snapshot, restricted to exchange
reactions with non-zero upper bound, that carries no back-reference to
the model: assigning into the returned dictionary leaves every bound of
the model unchanged and a subsequent read returns the same mapping as
before the assignment. -/
theorem medium_snapshot_no_alias (w : World) (k : String) (v : ℚ) :
    (dictAssign (getMediumOp w).1 (getMediumOp w).2 k v).model = w.model ∧
    getMedium (dictAssign (getMediumOp w).1 (getMediumOp w).2 k v).model
      = getMedium w.model ∧
    (∀ q ∈ getMedium w.model, ∃ r ∈ w.model.reactions,
        classify w.model r = RClass.exch ∧ r.ub ≠ 0 ∧ q = (r.id, r.ub)) := by
  refine ⟨rfl, rfl, ?_⟩
  intro q hq
  exact mem_mediumList w.model w.model.reactions q hq

/-- C7: the boundary classifier is a pure function of stoichiometry,
compartments and bounds: a reaction is boundary exactly when it has one
participating metabolite; boundary is exactly the union of the exchange,
demand and sink classes; exchange holds exactly when the single metabolite
lies in the externally-tagged compartment; demand reactions are the
one-directional single-metabolite internal reactions (lower bound at least
zero) and sink reactions the bidirectional ones (negative lower bound);
the classifier reads no other state, in particular not the reaction set. -/
theorem boundary_classifier_shape (m : Model) (r : Reaction) :
    (classify m r ≠ RClass.nonBoundary ↔ r.stoich.length = 1) ∧
    (classify m r ≠ RClass.nonBoundary ↔
      (classify m r = RClass.exch ∨ classify m r = RClass.demand ∨
        classify m r = RClass.sink)) ∧
    (classify m r = RClass.exch ↔ extSingle m r) ∧
    (classify m r = RClass.demand ↔
      (r.stoich.length = 1 ∧ ¬ extSingle m r ∧ 0 ≤ r.lb)) ∧
    (classify m r = RClass.sink ↔
      (r.stoich.length = 1 ∧ ¬ extSingle m r ∧ r.lb < 0)) ∧
    (∀ rs : List Reaction, classify { m with reactions := rs } r = classify m r) := by
  have hirr : ∀ rs : List Reaction,
      classify { m with reactions := rs } r = classify m r :=
    fun rs => classify_reactions_irrel m rs r
  rcases hs : r.stoich with _ | ⟨p, ps⟩
  · have hcl : classify m r = RClass.nonBoundary := by
      unfold classify
      rw [hs]
    have hes : ¬ extSingle m r := by
      rintro ⟨q, hq, _⟩
      rw [hs] at hq
      cases hq
    refine ⟨?_, ?_, ?_, ?_, ?_, hirr⟩ <;> simp [hcl, hs, hes]
  · cases ps with
    | nil =>
        have hes : extSingle m r ↔ compOf m p.1 = some m.extTag := by
          unfold extSingle
          rw [hs]
          constructor
          · rintro ⟨q, hq, hc⟩
            obtain rfl : p = q := by injection hq
            exact hc
          · intro hc
            exact ⟨p, rfl, hc⟩
        have hcl : classify m r =
            (if compOf m p.1 = some m.extTag then RClass.exch
             else if 0 ≤ r.lb then RClass.demand else RClass.sink) := by
          unfold classify
          rw [hs]
        by_cases hc : compOf m p.1 = some m.extTag
        · refine ⟨?_, ?_, ?_, ?_, ?_, hirr⟩ <;>
            simp [hcl, hc, hs, hes]
        · by_cases hl : 0 ≤ r.lb
          · refine ⟨?_, ?_, ?_, ?_, ?_, hirr⟩ <;>
              simp [hcl, hc, hl, hs, hes, not_lt.mpr hl]
          · refine ⟨?_, ?_, ?_, ?_, ?_, hirr⟩ <;>
              simp [hcl, hc, hl, hs, hes, not_le.mp hl]
    | cons p2 ps2 =>
        have hcl : classify m r = RClass.nonBoundary := by
          unfold classify
          rw [hs]
        have hes : ¬ extSingle m r := by
          rintro ⟨q, hq, _⟩
          rw [hs] at hq
          cases hq
        refine ⟨?_, ?_, ?_, ?_, ?_, hirr⟩ <;> simp [hcl, hs, hes]

/-! Helper lemmas about the flux-balance program under medium writes. -/

theorem objCoeff_applyFn (m : Model) (mp : List (String × ℚ)) (r : Reaction) :
    (applyFn m mp r).objCoeff = r.objCoeff := by
  unfold applyFn
  split <;> rfl

theorem stoich_applyFn (m : Model) (mp : List (String × ℚ)) (r : Reaction) :
    (applyFn m mp r).stoich = r.stoich := by
  unfold applyFn
  split <;> rfl

theorem objVal_applyMedium (m : Model) (mp : List (String × ℚ)) (v : FluxVec) :
    objVal (applyMedium m mp) v = objVal m v := by
  unfold objVal
  show ((m.reactions.map (applyFn m mp)).map _).sum = _
  rw [List.map_map]
  have hf : ((fun r : Reaction => r.objCoeff * v r.id) ∘ applyFn m mp)
      = (fun r : Reaction => r.objCoeff * v r.id) := by
    funext r
    show (applyFn m mp r).objCoeff * v (applyFn m mp r).id = _
    rw [objCoeff_applyFn, id_applyFn]
  rw [hf]

theorem massBalanced_applyMedium (m : Model) (mp : List (String × ℚ)) (w : FluxVec) :
    massBalanced (applyMedium m mp) w ↔ massBalanced m w := by
  unfold massBalanced
  have hmet : (applyMedium m mp).metabolites = m.metabolites := rfl
  rw [hmet]
  have hsum : ∀ mid : String,
      ((applyMedium m mp).reactions.map (fun r => coeffOf r mid * w r.id)).sum
        = (m.reactions.map (fun r => coeffOf r mid * w r.id)).sum := by
    intro mid
    show ((m.reactions.map (applyFn m mp)).map _).sum = _
    rw [List.map_map]
    have hf : ((fun r : Reaction => coeffOf r mid * w r.id) ∘ applyFn m mp)
        = (fun r : Reaction => coeffOf r mid * w r.id) := by
      funext r
      show coeffOf (applyFn m mp r) mid * w (applyFn m mp r).id = _
      unfold coeffOf
      rw [stoich_applyFn, id_applyFn]
    rw [hf]
  constructor
  · intro h mt hmt
    rw [← hsum mt.id]
    exact h mt hmt
  · intro h mt hmt
    rw [hsum mt.id]
    exact h mt hmt

theorem feasible_applyMedium_mono (m : Model) (M M2 : List (String × ℚ))
    (hlbneg : ∀ r ∈ m.reactions, classify m r = RClass.exch → r.lb ≤ 0)
    (hpos : ∀ k, 0 ≤ valOf M k) (hpos2 : ∀ k, 0 ≤ valOf M2 k)
    (hle : ∀ k, valOf M2 k ≤ valOf M k)
    (w : FluxVec) (hw : feasible (applyMedium m M2) w) :
    feasible (applyMedium m M) w := by
  obtain ⟨hwb, hmb⟩ := hw
  constructor
  · intro r2 hr2
    rw [show (applyMedium m M).reactions = m.reactions.map (applyFn m M) from rfl,
      List.mem_map] at hr2
    rcases hr2 with ⟨r, hrm, rfl⟩
    have hw2 := hwb (applyFn m M2 r)
      (List.mem_map_of_mem (applyFn m M2) hrm)
    rw [id_applyFn] at hw2 ⊢
    by_cases hex : classify m r = RClass.exch
    · have hfn : applyFn m M r = applyEx (valOf M r.id) r := if_pos hex
      have hfn2 : applyFn m M2 r = applyEx (valOf M2 r.id) r := if_pos hex
      have hlb : r.lb ≤ 0 := hlbneg r hrm hex
      have hclamp : (applyEx (valOf M r.id) r).lb = r.lb := by
        unfold applyEx
        show (if r.lb ≤ valOf M r.id then r.lb else valOf M r.id) = r.lb
        rw [if_pos (le_trans hlb (hpos r.id))]
      have hclamp2 : (applyEx (valOf M2 r.id) r).lb = r.lb := by
        unfold applyEx
        show (if r.lb ≤ valOf M2 r.id then r.lb else valOf M2 r.id) = r.lb
        rw [if_pos (le_trans hlb (hpos2 r.id))]
      rw [hfn2, hclamp2] at hw2
      rw [hfn, hclamp]
      refine ⟨hw2.1, ?_⟩
      have hub2 : (applyEx (valOf M2 r.id) r).ub = valOf M2 r.id := rfl
      rw [hub2] at hw2
      exact le_trans hw2.2 (hle r.id)
    · have hfn : applyFn m M r = r := if_neg hex
      have hfn2 : applyFn m M2 r = r := if_neg hex
      rw [hfn2] at hw2
      rw [hfn]
      exact hw2
  · exact (massBalanced_applyMedium m M w).mpr
      ((massBalanced_applyMedium m M2 w).mp hmb)

/-- C8: for every model and target objective floor for which the backend
reports optimal outcomes of both derived programs, the active-import count
of the MIP-mode minimal medium is at most the active-import count of any
single-solution LP-mode minimal medium for the same floor, because any
LP-mode result is feasible for the count-minimising program. -/
theorem mip_count_le_lp_count (m : Model) (gmin : ℚ) (v w : FluxVec)
    (hmip : IsMIPMinMedium m gmin v) (hlp : IsLPMinMedium m gmin w) :
    activeImports m v ≤ activeImports m w :=
  hmip.2 w hlp.1

/-- C10 amended: shrinking the medium never raises the optimal objective,
provided no lower-bound clamping is involved — here, every exchange lower
bound is non-positive and both mappings are non-negative, which makes the
smaller medium's feasible region a subset of the larger one's.  (The
unamended claim fails when the medium write clamps a positive exchange
lower bound; see the counterexample.) -/
theorem medium_shrink_monotone (m : Model) (M M2 : List (String × ℚ))
    (v v2 : FluxVec)
    (hlbneg : ∀ r ∈ m.reactions, classify m r = RClass.exch → r.lb ≤ 0)
    (hpos : ∀ k, 0 ≤ valOf M k) (hpos2 : ∀ k, 0 ≤ valOf M2 k)
    (hle : ∀ k, valOf M2 k ≤ valOf M k)
    (hv : IsOptimal (applyMedium m M) v)
    (hv2 : IsOptimal (applyMedium m M2) v2) :
    objVal (applyMedium m M2) v2 ≤ objVal (applyMedium m M) v := by
  have hfeas : feasible (applyMedium m M) v2 :=
    feasible_applyMedium_mono m M M2 hlbneg hpos hpos2 hle v2 hv2.1
  have h1 := hv.2 v2 hfeas
  rw [objVal_applyMedium, objVal_applyMedium] at h1
  rw [objVal_applyMedium, objVal_applyMedium]
  exact h1

/-! Helper lemmas for alternative enumeration and result formats. -/

theorem sameSet_symm (a b : List String) (h : sameSet a b) : sameSet b a :=
  ⟨h.2, h.1⟩

theorem enumLoop_spec (solve : List (List String) → Option MSol)
    (hcr : CutRespecting solve) :
    ∀ (k : Nat) (cuts : List (List String)) (best : Nat) (acc : List MSol),
      (∀ a ∈ acc, a.support.length = best) →
      (∀ a ∈ acc, a.support ∈ cuts) →
      (acc.reverse.Pairwise (fun a b => ¬ sameSet a.support b.support)) →
      (enumLoop solve k cuts best acc).length ≤ acc.length + k ∧
      (∀ a ∈ enumLoop solve k cuts best acc, a.support.length = best) ∧
      (enumLoop solve k cuts best acc).Pairwise
        (fun a b => ¬ sameSet a.support b.support) := by
  intro k
  induction k with
  | zero =>
      intro cuts best acc h1 h2 h3
      refine ⟨by simp [enumLoop], ?_, by simpa [enumLoop] using h3⟩
      intro a ha
      rw [enumLoop, List.mem_reverse] at ha
      exact h1 a ha
  | succ k ih =>
      intro cuts best acc h1 h2 h3
      cases hsv : solve cuts with
      | none =>
          have hred : enumLoop solve (k + 1) cuts best acc = acc.reverse := by
            simp only [enumLoop, hsv]
          rw [hred]
          refine ⟨by simp, ?_, by simpa using h3⟩
          intro a ha
          rw [List.mem_reverse] at ha
          exact h1 a ha
      | some s =>
          have hred : enumLoop solve (k + 1) cuts best acc
              = if s.support.length = best
                then enumLoop solve k (s.support :: cuts) best (s :: acc)
                else acc.reverse := by
            simp only [enumLoop, hsv]
          rw [hred]
          by_cases hb : s.support.length = best
          · rw [if_pos hb]
            have hstep := ih (s.support :: cuts) best (s :: acc) ?_ ?_ ?_
            · refine ⟨?_, hstep.2.1, hstep.2.2⟩
              calc (enumLoop solve k (s.support :: cuts) best (s :: acc)).length
                  ≤ (s :: acc).length + k := hstep.1
                _ = acc.length + (k + 1) := by simp [Nat.add_comm, Nat.add_assoc, Nat.add_left_comm]
            · intro a ha
              rcases List.mem_cons.mp ha with rfl | ha2
              · exact hb
              · exact h1 a ha2
            · intro a ha
              rcases List.mem_cons.mp ha with rfl | ha2
              · exact List.mem_cons_self _ _
              · exact List.mem_cons_of_mem _ (h2 a ha2)
            · rw [List.reverse_cons, List.pairwise_append]
              refine ⟨h3, by simp, ?_⟩
              intro a ha b hbm
              rw [List.mem_reverse] at ha
              rw [List.mem_singleton] at hbm
              rw [hbm]
              intro hss
              exact hcr cuts s hsv a.support (h2 a ha) (sameSet_symm _ _ hss)
          · rw [if_neg hb]
            refine ⟨by simp, ?_, by simpa using h3⟩
            intro a ha
            rw [List.mem_reverse] at ha
            exact h1 a ha

/-- C3: under a cut-respecting backend oracle, alternative enumeration with
a positive requested count k returns at most k alternatives; every returned
alternative has the same objective value (the indicator count fixed by the
first solve) and the returned alternatives pairwise differ in their set of
active exchange reactions, because each collected solution is excluded by a
no-good cut before the next re-solve. -/
theorem enumeration_invariants (solve : List (List String) → Option MSol)
    (k : Nat) (hcr : CutRespecting solve) (hk : 0 < k) :
    (enumMedia solve k).length ≤ k ∧
    (∀ a ∈ enumMedia solve k, ∀ b ∈ enumMedia solve k,
        a.support.length = b.support.length) ∧
    (enumMedia solve k).Pairwise (fun a b => ¬ sameSet a.support b.support) := by
  cases k with
  | zero => exact absurd hk (lt_irrefl 0)
  | succ k2 =>
      rw [enumMedia]
      cases hsv : solve [] with
      | none => simp
      | some s0 =>
          have hstep := enumLoop_spec solve hcr k2 [s0.support]
            s0.support.length [s0] ?_ ?_ ?_
          · refine ⟨?_, ?_, hstep.2.2⟩
            · calc (enumLoop solve k2 [s0.support] s0.support.length [s0]).length
                  ≤ [s0].length + k2 := hstep.1
                _ = k2 + 1 := by simp [Nat.add_comm]
            · intro a ha b hbm
              rw [hstep.2.1 a ha, hstep.2.1 b hbm]
          · intro a ha
            rw [List.mem_singleton] at ha
            subst ha
            rfl
          · intro a ha
            rw [List.mem_singleton] at ha
            subst ha
            exact List.mem_cons_self _ _
          · simp

theorem listSolve_cutRespecting (cands : List MSol) :
    CutRespecting (listSolve cands) := by
  intro cuts s hs c hc
  unfold listSolve at hs
  cases hf : cands.filter (fun c2 => decide (∀ x ∈ cuts, ¬ sameSet c2.support x)) with
  | nil => rw [hf] at hs; cases hs
  | cons y ys =>
      rw [hf] at hs
      have hy : y = s := by
        have : some y = some s := hs
        injection this
      subst hy
      have hym : y ∈ cands.filter (fun c2 => decide (∀ x ∈ cuts, ¬ sameSet c2.support x)) := by
        rw [hf]
        exact List.mem_cons_self _ _
      have hprop := (List.mem_filter.mp hym).2
      rw [decide_eq_true_eq] at hprop
      exact hprop c hc

theorem lookupA_none_iff (ps : List (String × ℚ)) (k : String) :
    lookupA ps k = Option.none ↔ k ∉ ps.map Prod.fst := by
  induction ps with
  | nil => simp [lookupA]
  | cons p ps ih =>
      by_cases hp : p.1 = k
      · simp [lookupA, hp]
      · simp only [lookupA, hp, ite_false, List.map_cons, List.mem_cons]
        rw [ih]
        constructor
        · intro h hcon
          rcases hcon with h2 | h2
          · exact hp h2.symm
          · exact h h2
        · intro h h2
          exact h (Or.inr h2)

theorem valOf_eq_zero_iff (a : List (String × ℚ)) (k : String)
    (hz : zeroFree a) : valOf a k = 0 ↔ lookupA a k = Option.none := by
  unfold valOf
  cases hA : lookupA a k with
  | none => simp
  | some v =>
      simp only [Option.getD_some]
      constructor
      · intro hv
        rcases lookupA_some_spec a k v hA with ⟨p, hp1, _, hp3⟩
        exact absurd (hp3.trans hv) (hz p hp1)
      · intro hcon
        cases hcon

/-- C9 amended: every single-solution minimal-medium result is a zero-free
mapping from exchange identifier to attained import magnitude; for
multi-alternative enumeration the reported result is a table over the
union of the exchange reactions active in at least one alternative, with
one value per alternative in discovery order, in which an exactly-zero
entry appears precisely where a reaction is inactive in that alternative
(so the per-alternative columns are in general not zero-free), and every
row is non-zero in at least one alternative. -/
theorem minimal_medium_result_format (m : Model) (v : FluxVec)
    (alts : List (List (String × ℚ))) (hz : ∀ a ∈ alts, zeroFree a) :
    zeroFree (lpResult m v) ∧
    (∀ row ∈ enumTable alts, row.2.length = alts.length ∧ ∃ x ∈ row.2, x ≠ 0) ∧
    (∀ row ∈ enumTable alts, ∀ j, (hj : j < alts.length) →
      (row.2.getD j 0 = 0 ↔ lookupA (alts.getD j []) row.1 = Option.none)) := by
  refine ⟨?_, ?_, ?_⟩
  · intro p hp
    unfold lpResult at hp
    rw [List.mem_filterMap] at hp
    rcases hp with ⟨r, _, hr2⟩
    by_cases hm : importMag v r = 0
    · rw [if_pos hm] at hr2
      cases hr2
    · rw [if_neg hm] at hr2
      injection hr2 with hr3
      rw [← hr3]
      exact hm
  · intro row hrow
    unfold enumTable at hrow
    rw [List.mem_map] at hrow
    rcases hrow with ⟨kk, hk1, rfl⟩
    refine ⟨by simp, ?_⟩
    unfold unionKeys at hk1
    rw [List.mem_dedup, List.mem_flatMap] at hk1
    rcases hk1 with ⟨a, ha1, ha2⟩
    refine ⟨valOf a kk, List.mem_map_of_mem _ ha1, ?_⟩
    intro hv0
    have hnone := (valOf_eq_zero_iff a kk (hz a ha1)).mp hv0
    rw [lookupA_none_iff] at hnone
    exact hnone ha2
  · intro row hrow j hj
    unfold enumTable at hrow
    rw [List.mem_map] at hrow
    rcases hrow with ⟨kk, hk1, rfl⟩
    have hlen : j < (alts.map (fun a => valOf a kk)).length := by
      simpa using hj
    rw [List.getD_eq_getElem _ _ hlen, List.getD_eq_getElem _ _ hj]
    rw [List.getElem_map]
    exact valOf_eq_zero_iff (alts[j]) kk (hz _ (List.getElem_mem _))

/-- C9 counterexample: the enumeration result recorded in the notebook
(cell-18) is not an ordered sequence of zero-free mappings: its first
alternative contains the entry EX_fru_e with value exactly zero. -/
theorem enumeration_zero_entry_cell18 :
    lookupA (cell18Alts.getD 0 []) ("EX_fru_e") = some 0 ∧
    ¬ zeroFree (cell18Alts.getD 0 []) := by
  constructor
  · decide
  · intro hzf
    exact hzf (("EX_fru_e", 0)) (by decide) rfl

/-! Concrete optimality facts on the clamp model. -/

theorem applyMedium_mClamp_big : applyMedium mClamp mClampBig = mClamp := rfl

theorem applyMedium_mClamp_small : applyMedium mClamp mClampSmall = mClampS := rfl

theorem mClamp_opt_big : IsOptimal mClamp vBig := by
  constructor
  · constructor
    · intro r hr
      simp only [mClamp, List.mem_cons, List.not_mem_nil, or_false] at hr
      rcases hr with rfl | rfl | rfl | rfl | rfl <;>
        simp [vBig, rSRCB, rPROD, rEXC, rOBJ, rDRC] <;> norm_num
    · intro mt hmt
      simp only [mClamp, List.mem_cons, List.not_mem_nil, or_false] at hmt
      rcases hmt with rfl | rfl | rfl <;>
        simp [mClamp, coeffOf, lookupA, vBig, rSRCB, rPROD, rEXC, rOBJ, rDRC] <;>
        norm_num
  · intro w hw
    obtain ⟨hwb, hmb⟩ := hw
    have h2 : ((0:ℚ) ≤ w ("PROD") ∧ w ("PROD") ≤ 10) :=
      hwb rPROD (by simp [mClamp])
    have h3 : ((5:ℚ) ≤ w ("EX_A") ∧ w ("EX_A") ≤ 10) :=
      hwb rEXC (by simp [mClamp])
    have hA : 0 * w ("SRCB") + (1 * w ("PROD") + ((-1) * w ("EX_A")
        + ((-1) * w ("OBJ") + (0 * w ("DRC") + 0)))) = 0 :=
      hmb { id := "A", compartment := "e" } (by simp [mClamp])
    have hvb : objVal mClamp vBig = 5 := by
      simp [objVal, mClamp, vBig, rSRCB, rPROD, rEXC, rOBJ, rDRC]
    have hwo : objVal mClamp w = 0 * w ("SRCB") + (0 * w ("PROD")
        + (0 * w ("EX_A") + (1 * w ("OBJ") + (0 * w ("DRC") + 0)))) := rfl
    rw [hvb, hwo]
    linarith

theorem mClampS_opt : IsOptimal mClampS vSmall := by
  constructor
  · constructor
    · intro r hr
      simp only [mClampS, List.mem_cons, List.not_mem_nil, or_false] at hr
      rcases hr with rfl | rfl | rfl | rfl | rfl <;>
        simp [vSmall, rSRCB, rPROD, rOBJ, rDRC] <;> norm_num
    · intro mt hmt
      simp only [mClampS, mClamp, List.mem_cons, List.not_mem_nil, or_false] at hmt
      rcases hmt with rfl | rfl | rfl <;>
        simp [mClampS, coeffOf, lookupA, vSmall, rSRCB, rPROD, rOBJ, rDRC] <;>
        norm_num
  · intro w hw
    obtain ⟨hwb, hmb⟩ := hw
    have h2 : ((0:ℚ) ≤ w ("PROD") ∧ w ("PROD") ≤ 10) :=
      hwb rPROD (by simp [mClampS])
    have h3 : ((3:ℚ) ≤ w ("EX_A") ∧ w ("EX_A") ≤ 3) :=
      hwb { id := "EX_A", lb := 3, ub := 3, stoich := [("A", -1)], objCoeff := 0 }
        (by simp [mClampS])
    have hA : 0 * w ("SRCB") + (1 * w ("PROD") + ((-1) * w ("EX_A")
        + ((-1) * w ("OBJ") + (0 * w ("DRC") + 0)))) = 0 :=
      hmb { id := "A", compartment := "e" } (by simp [mClampS, mClamp])
    have hvb : objVal mClampS vSmall = 7 := by
      simp [objVal, mClampS, vSmall, rSRCB, rPROD, rOBJ, rDRC]
    have hwo : objVal mClampS w = 0 * w ("SRCB") + (0 * w ("PROD")
        + (0 * w ("EX_A") + (1 * w ("OBJ") + (0 * w ("DRC") + 0)))) := rfl
    rw [hvb, hwo]
    linarith

theorem valOf_mClamp_le : ∀ k, valOf mClampSmall k ≤ valOf mClampBig k := by
  intro k
  unfold valOf mClampSmall mClampBig
  by_cases h : ("EX_A" : String) = k
  · simp only [lookupA, h, ite_true]
    norm_num
  · simp only [lookupA, h, ite_false]
    norm_num

/-- C10 counterexample: the claim as stated fails on a model whose exchange
reaction has a positive lower bound (a forced export).  The two media are
valid (keys are exchange identifiers, values non-negative) and pointwise
ordered, the optimizer returns optimal outcomes under both, yet the optimal
objective under the smaller medium (7) strictly exceeds the one under the
larger medium (5), because applying the smaller medium clamps the forced
export from 5 down to 3 and so relaxes the program. -/
theorem medium_shrink_not_monotone :
    (∀ p ∈ mClampBig, p.1 ∈ exchangeIds mClamp ∧ 0 ≤ p.2) ∧
    (∀ p ∈ mClampSmall, p.1 ∈ exchangeIds mClamp ∧ 0 ≤ p.2) ∧
    (∀ k, valOf mClampSmall k ≤ valOf mClampBig k) ∧
    IsOptimal (applyMedium mClamp mClampBig) vBig ∧
    IsOptimal (applyMedium mClamp mClampSmall) vSmall ∧
    objVal (applyMedium mClamp mClampBig) vBig
      < objVal (applyMedium mClamp mClampSmall) vSmall := by
  have hexch : exchangeIds mClamp = [("EX_A")] := rfl
  refine ⟨?_, ?_, valOf_mClamp_le, ?_, ?_, ?_⟩
  · intro p hp
    simp only [mClampBig, List.mem_cons, List.not_mem_nil, or_false] at hp
    subst hp
    rw [hexch]
    exact ⟨by simp, by norm_num⟩
  · intro p hp
    simp only [mClampSmall, List.mem_cons, List.not_mem_nil, or_false] at hp
    subst hp
    rw [hexch]
    exact ⟨by simp, by norm_num⟩
  · rw [applyMedium_mClamp_big]
    exact mClamp_opt_big
  · rw [applyMedium_mClamp_small]
    exact mClampS_opt
  · rw [applyMedium_mClamp_big, applyMedium_mClamp_small]
    have e1 : objVal mClamp vBig = 5 := by
      simp [objVal, mClamp, vBig, rSRCB, rPROD, rEXC, rOBJ, rDRC]
    have e2 : objVal mClampS vSmall = 7 := by
      simp [objVal, mClampS, vSmall, rSRCB, rPROD, rOBJ, rDRC]
    rw [e1, e2]
    norm_num

/-! Concrete optimality facts on the small flux model. -/

theorem applyMedium_mFlux_big : applyMedium mFlux mFluxBig = mFluxB := rfl

theorem applyMedium_mFlux_small : applyMedium mFlux mFluxSmall = mFluxS := rfl

theorem mFluxB_opt : IsOptimal mFluxB vStar := by
  constructor
  · constructor
    · intro r hr
      simp only [mFluxB, List.mem_cons, List.not_mem_nil, or_false] at hr
      rcases hr with rfl | rfl | rfl <;>
        simp [vStar, rGROW, rDRAIN] <;> norm_num
    · intro mt hmt
      simp only [mFluxB, mFlux, List.mem_cons, List.not_mem_nil, or_false] at hmt
      rcases hmt with rfl | rfl <;>
        simp [mFluxB, coeffOf, lookupA, vStar, rGROW, rDRAIN] <;> norm_num
  · intro w hw
    have h2 : ((0:ℚ) ≤ w ("GROW") ∧ w ("GROW") ≤ 10) :=
      hw.1 rGROW (by simp [mFluxB])
    have hvb : objVal mFluxB vStar = 10 := by
      simp [objVal, mFluxB, vStar, rGROW, rDRAIN]
    have hwo : objVal mFluxB w
        = 0 * w ("EX_A") + (1 * w ("GROW") + (0 * w ("DRAIN") + 0)) := rfl
    rw [hvb, hwo]
    linarith

theorem mFluxS_opt : IsOptimal mFluxS vStar := by
  constructor
  · constructor
    · intro r hr
      simp only [mFluxS, List.mem_cons, List.not_mem_nil, or_false] at hr
      rcases hr with rfl | rfl | rfl <;>
        simp [vStar, rGROW, rDRAIN] <;> norm_num
    · intro mt hmt
      simp only [mFluxS, mFlux, List.mem_cons, List.not_mem_nil, or_false] at hmt
      rcases hmt with rfl | rfl <;>
        simp [mFluxS, coeffOf, lookupA, vStar, rGROW, rDRAIN] <;> norm_num
  · intro w hw
    have h2 : ((0:ℚ) ≤ w ("GROW") ∧ w ("GROW") ≤ 10) :=
      hw.1 rGROW (by simp [mFluxS])
    have hvb : objVal mFluxS vStar = 10 := by
      simp [objVal, mFluxS, vStar, rGROW, rDRAIN]
    have hwo : objVal mFluxS w
        = 0 * w ("EX_A") + (1 * w ("GROW") + (0 * w ("DRAIN") + 0)) := rfl
    rw [hvb, hwo]
    linarith

theorem mFlux_exch_lb_nonpos :
    ∀ r ∈ mFlux.reactions, classify mFlux r = RClass.exch → r.lb ≤ 0 := by
  intro r hr
  simp only [mFlux, List.mem_cons, List.not_mem_nil, or_false] at hr
  rcases hr with rfl | rfl | rfl
  · intro _
    norm_num [rEXA]
  · intro hcv
    have hne : classify mFlux rGROW = RClass.nonBoundary := rfl
    rw [hne] at hcv
    exact RClass.noConfusion hcv
  · intro hcv
    have hne : classify mFlux rDRAIN = RClass.demand := rfl
    rw [hne] at hcv
    exact RClass.noConfusion hcv

theorem valOf_mFluxBig_nonneg : ∀ k, 0 ≤ valOf mFluxBig k := by
  intro k
  unfold valOf mFluxBig
  by_cases h : ("EX_A" : String) = k
  · simp only [lookupA, h, ite_true, Option.getD_some]
    norm_num
  · simp only [lookupA, h, ite_false]
    norm_num [lookupA]

theorem valOf_mFluxSmall_nonneg : ∀ k, 0 ≤ valOf mFluxSmall k := by
  intro k
  unfold valOf mFluxSmall
  by_cases h : ("EX_A" : String) = k
  · simp only [lookupA, h, ite_true, Option.getD_some]
    norm_num
  · simp only [lookupA, h, ite_false]
    norm_num [lookupA]

theorem valOf_mFlux_le : ∀ k, valOf mFluxSmall k ≤ valOf mFluxBig k := by
  intro k
  unfold valOf mFluxSmall mFluxBig
  by_cases h : ("EX_A" : String) = k
  · simp only [lookupA, h, ite_true, Option.getD_some]
    norm_num
  · simp only [lookupA, h, ite_false]
    norm_num [lookupA]

theorem mFlux_forced (w : FluxVec) (hw : achieves mFlux 10 w) :
    w ("GROW") = 10 ∧ w ("EX_A") = -10 := by
  obtain ⟨⟨hwb, hmb⟩, hobj⟩ := hw
  have h1 : ((-10:ℚ) ≤ w ("EX_A") ∧ w ("EX_A") ≤ 0) :=
    hwb rEXA (by simp [mFlux])
  have h2 : ((0:ℚ) ≤ w ("GROW") ∧ w ("GROW") ≤ 10) :=
    hwb rGROW (by simp [mFlux])
  have hA : (-1) * w ("EX_A") + ((-1) * w ("GROW") + (0 * w ("DRAIN") + 0)) = 0 :=
    hmb { id := "A", compartment := "e" } (by simp [mFlux])
  have hob : (10:ℚ) ≤ 0 * w ("EX_A") + (1 * w ("GROW") + (0 * w ("DRAIN") + 0)) := hobj
  constructor <;> linarith

theorem mFlux_mip : IsMIPMinMedium mFlux 10 vStar := by
  constructor
  · constructor
    · constructor
      · intro r hr
        simp only [mFlux, List.mem_cons, List.not_mem_nil, or_false] at hr
        rcases hr with rfl | rfl | rfl <;>
          simp [vStar, rEXA, rGROW, rDRAIN] <;> norm_num
      · intro mt hmt
        simp only [mFlux, List.mem_cons, List.not_mem_nil, or_false] at hmt
        rcases hmt with rfl | rfl <;>
          simp [mFlux, coeffOf, lookupA, vStar, rEXA, rGROW, rDRAIN] <;> norm_num
    · rw [show objVal mFlux vStar = 10 from by
        simp [objVal, mFlux, vStar, rEXA, rGROW, rDRAIN]]
  · intro w hw
    obtain ⟨hg, he⟩ := mFlux_forced w hw
    have hxl : exchangesOf mFlux = [rEXA] := rfl
    have h1 : activeImports mFlux vStar = 1 := by
      unfold activeImports
      rw [hxl]
      have him : importMag vStar rEXA = 10 := by
        unfold importMag
        rw [show vStar rEXA.id = -10 from rfl]
        norm_num
      simp [him]
    have h2 : activeImports mFlux w = 1 := by
      unfold activeImports
      rw [hxl]
      have him : importMag w rEXA = 10 := by
        unfold importMag
        rw [show rEXA.id = ("EX_A") from rfl, he]
        norm_num
      simp [him]
    rw [h1, h2]

theorem mFlux_lp : IsLPMinMedium mFlux 10 vStar := by
  constructor
  · exact mFlux_mip.1
  · intro w hw
    obtain ⟨hg, he⟩ := mFlux_forced w hw
    have hxl : exchangesOf mFlux = [rEXA] := rfl
    have h1 : totalImport mFlux vStar = 10 := by
      unfold totalImport
      rw [hxl]
      have him : importMag vStar rEXA = 10 := by
        unfold importMag
        rw [show vStar rEXA.id = -10 from rfl]
        norm_num
      simp [him]
    have h2 : totalImport mFlux w = 10 := by
      unfold totalImport
      rw [hxl]
      have him : importMag w rEXA = 10 := by
        unfold importMag
        rw [show rEXA.id = ("EX_A") from rfl, he]
        norm_num
      simp [him]
    rw [h1, h2]

/-! Witnesses instantiating the claim theorems at concrete inputs. -/

/-- Witness for C2: the medium EX_a maps to 5, EX_b to 0 on the demo model;
reading back after writing drops the zero entry. -/
theorem set_get_medium_roundtrip_witness :
    (rxnIds demoModel.reactions).Nodup ∧
    (∀ p ∈ demoMedium, p.1 ∈ exchangeIds demoModel) ∧
    (∀ k, lookupA (getMedium (applyMedium demoModel demoMedium)) k =
      (match lookupA demoMedium k with
       | some v => if v = 0 then Option.none else some v
       | Option.none => Option.none)) := by
  have hkeys : ∀ p ∈ demoMedium, p.1 ∈ exchangeIds demoModel := by
    intro p hp
    simp only [demoMedium, List.mem_cons, List.not_mem_nil, or_false] at hp
    rcases hp with rfl | rfl <;>
      rw [show exchangeIds demoModel = [("EX_a"), ("EX_b")] from rfl] <;> simp
  exact ⟨by decide, hkeys,
    set_get_medium_roundtrip demoModel demoMedium (by decide) hkeys⟩

/-- Witness for C3: enumeration over two concrete equal-count candidate
solutions with a cut-respecting list oracle and k = 2. -/
theorem enumeration_invariants_witness :
    CutRespecting (listSolve demoCands) ∧ 0 < 2 ∧
    ((enumMedia (listSolve demoCands) 2).length ≤ 2 ∧
     (∀ a ∈ enumMedia (listSolve demoCands) 2,
        ∀ b ∈ enumMedia (listSolve demoCands) 2,
          a.support.length = b.support.length) ∧
     (enumMedia (listSolve demoCands) 2).Pairwise
       (fun a b => ¬ sameSet a.support b.support)) :=
  ⟨listSolve_cutRespecting demoCands, by norm_num,
    enumeration_invariants (listSolve demoCands) 2
      (listSolve_cutRespecting demoCands) (by norm_num)⟩

/-- Witness for C4: a mapping with the unknown key bogus makes the checked
medium writer fail with the unknown-reaction error and leave the demo model
unchanged. -/
theorem set_medium_atomic_witness :
    (∃ p ∈ demoBad, p.1 ∉ exchangeIds demoModel) ∧
    setMedium demoModel demoBad false = (demoModel, some MedErr.unknownReaction) := by
  have hbad : ∃ p ∈ demoBad, p.1 ∉ exchangeIds demoModel := by
    refine ⟨(("bogus"), 1), by simp [demoBad], ?_⟩
    rw [show exchangeIds demoModel = [("EX_a"), ("EX_b")] from rfl]
    simp
  exact ⟨hbad, (set_medium_atomic demoModel demoBad false).1 hbad⟩

/-- Witness for C5: the bound shape of the demo exchange reaction after
writing the demo medium. -/
theorem apply_medium_bounds_witness :
    (rxnIds demoModel.reactions).Nodup ∧ demoEx ∈ demoModel.reactions ∧
    classify demoModel demoEx = RClass.exch ∧
    (∃ r2, lookupRxn (applyMedium demoModel demoMedium).reactions demoEx.id = some r2 ∧
      r2.id = demoEx.id ∧ r2.stoich = demoEx.stoich ∧
      r2.ub = valOf demoMedium demoEx.id ∧
      (lookupA demoMedium demoEx.id = Option.none → r2.ub = 0) ∧
      r2.lb = (if demoEx.lb ≤ valOf demoMedium demoEx.id
               then demoEx.lb else valOf demoMedium demoEx.id) ∧
      (demoEx.lb ≤ valOf demoMedium demoEx.id → r2.lb = demoEx.lb) ∧
      r2.lb ≤ r2.ub) :=
  ⟨by decide, by simp [demoModel, demoEx], rfl,
    apply_medium_bounds demoModel demoMedium demoEx (by decide)
      (by simp [demoModel, demoEx]) rfl⟩

/-- Witness for C8: on the small flux model with floor 10 the assignment
vStar is both the MIP-mode and the LP-mode minimal medium, and the count
comparison holds. -/
theorem mip_count_le_lp_count_witness :
    IsMIPMinMedium mFlux 10 vStar ∧ IsLPMinMedium mFlux 10 vStar ∧
    activeImports mFlux vStar ≤ activeImports mFlux vStar :=
  ⟨mFlux_mip, mFlux_lp,
    mip_count_le_lp_count mFlux 10 vStar vStar mFlux_mip mFlux_lp⟩

/-- Witness for C9 (amended form): two concrete zero-free alternatives and
the demo model instantiate the result-format theorem. -/
theorem minimal_medium_result_format_witness :
    (∀ a ∈ demoAlts, zeroFree a) ∧
    (zeroFree (lpResult demoModel vStar) ∧
     (∀ row ∈ enumTable demoAlts,
        row.2.length = demoAlts.length ∧ ∃ x ∈ row.2, x ≠ 0) ∧
     (∀ row ∈ enumTable demoAlts, ∀ j, (j < demoAlts.length) →
        (row.2.getD j 0 = 0 ↔
          lookupA (demoAlts.getD j []) row.1 = Option.none))) := by
  have hz : ∀ a ∈ demoAlts, zeroFree a := by
    intro a ha
    simp only [demoAlts, List.mem_cons, List.not_mem_nil, or_false] at ha
    rcases ha with rfl | rfl <;>
      · intro p hp
        simp only [List.mem_cons, List.not_mem_nil, or_false] at hp
        subst hp
        norm_num
  exact ⟨hz, minimal_medium_result_format demoModel vStar demoAlts hz⟩

/-- Witness for C10 (amended form): both media open only EX_A (to 10 and
to 3) on the small flux model, whose exchange lower bounds are non-positive;
vStar is optimal under both and the monotonicity inequality holds. -/
theorem medium_shrink_monotone_witness :
    ((∀ r ∈ mFlux.reactions, classify mFlux r = RClass.exch → r.lb ≤ 0) ∧
     (∀ k, 0 ≤ valOf mFluxBig k) ∧ (∀ k, 0 ≤ valOf mFluxSmall k) ∧
     (∀ k, valOf mFluxSmall k ≤ valOf mFluxBig k) ∧
     IsOptimal (applyMedium mFlux mFluxBig) vStar ∧
     IsOptimal (applyMedium mFlux mFluxSmall) vStar) ∧
    objVal (applyMedium mFlux mFluxSmall) vStar
      ≤ objVal (applyMedium mFlux mFluxBig) vStar := by
  have ho1 : IsOptimal (applyMedium mFlux mFluxBig) vStar := by
    rw [applyMedium_mFlux_big]
    exact mFluxB_opt
  have ho2 : IsOptimal (applyMedium mFlux mFluxSmall) vStar := by
    rw [applyMedium_mFlux_small]
    exact mFluxS_opt
  exact ⟨⟨mFlux_exch_lb_nonpos, valOf_mFluxBig_nonneg, valOf_mFluxSmall_nonneg,
      valOf_mFlux_le, ho1, ho2⟩,
    medium_shrink_monotone mFlux mFluxBig mFluxSmall vStar vStar
      mFlux_exch_lb_nonpos valOf_mFluxBig_nonneg valOf_mFluxSmall_nonneg
      valOf_mFlux_le ho1 ho2⟩

/-- Witness for C1: a concrete scope body that writes the medium, runs an
optimization, opens a nested scope and raises an error leaves the demo
model unchanged. -/
theorem scoped_mutation_restores_witness :
    (runScope demoModel demoBody).1 = demoModel :=
  scoped_mutation_restores demoModel demoBody

/-- Witness for C6: the snapshot theorem at a concrete world, key and
value. -/
theorem medium_snapshot_no_alias_witness :
    (dictAssign (getMediumOp demoWorld).1 (getMediumOp demoWorld).2 ("EX_a") 0).model
      = demoWorld.model ∧
    getMedium (dictAssign (getMediumOp demoWorld).1 (getMediumOp demoWorld).2
        ("EX_a") 0).model
      = getMedium demoWorld.model ∧
    (∀ q ∈ getMedium demoWorld.model, ∃ r ∈ demoWorld.model.reactions,
        classify demoWorld.model r = RClass.exch ∧ r.ub ≠ 0 ∧ q = (r.id, r.ub)) :=
  medium_snapshot_no_alias demoWorld ("EX_a") 0

/-- Witness for C7: the classifier shape theorem at the demo model and its
first exchange reaction. -/
theorem boundary_classifier_shape_witness :
    (classify demoModel demoEx ≠ RClass.nonBoundary ↔ demoEx.stoich.length = 1) ∧
    (classify demoModel demoEx ≠ RClass.nonBoundary ↔
      (classify demoModel demoEx = RClass.exch ∨
        classify demoModel demoEx = RClass.demand ∨
        classify demoModel demoEx = RClass.sink)) ∧
    (classify demoModel demoEx = RClass.exch ↔ extSingle demoModel demoEx) ∧
    (classify demoModel demoEx = RClass.demand ↔
      (demoEx.stoich.length = 1 ∧ ¬ extSingle demoModel demoEx ∧ 0 ≤ demoEx.lb)) ∧
    (classify demoModel demoEx = RClass.sink ↔
      (demoEx.stoich.length = 1 ∧ ¬ extSingle demoModel demoEx ∧ demoEx.lb < 0)) ∧
    (∀ rs : List Reaction,
      classify { demoModel with reactions := rs } demoEx = classify demoModel demoEx) :=
  boundary_classifier_shape demoModel demoEx

end Cobra
